import Mathlib

/-!
Shallow embedding of the terminal-time-tracker core: the entry store,
the active-counter state machine and the report engine of `src/cli.js`,
plus the browser storage variant of `src/services/storage.ts`.

File-system and clock effects are made explicit: every operation takes the
current persisted state (and, where the source reads the clock, the current
time in epoch milliseconds) as an argument and returns the new persisted
state together with the value the source returns to its caller.
-/

/-- Model of JavaScript coercion of a possibly-`null` number to arithmetic:
`null` coerces to `0`, as in `Date.now() - state.lastStartTime` when
`lastStartTime` is `null`. -/
def jsNum (o : Option ℤ) : ℤ := o.getD 0

/-- Model of JavaScript `Math.round (n / d)` for an exact rational `n / d`
with `d > 0`.  `Math.round x` is `⌊x + 1/2⌋` (half rounds toward `+∞`), and
for `x = n / d` that floor equals `(2*n + d)` floor-divided by `2*d`. -/
def jsMathRound (n d : ℤ) : ℤ := Int.fdiv (2 * n + d) (2 * d)

/-- Rounding of `n / d` (with `d > 0`) half away from zero, as the
specification words it: `⌊n/d + 1/2⌋` for non-negative values and the
mirror image for negative ones. -/
def roundHalfAwayFromZero (n d : ℤ) : ℤ :=
  if 0 ≤ n then Int.fdiv (2 * n + d) (2 * d) else -Int.fdiv (2 * (-n) + d) (2 * d)

/-- Numeric value of a list of decimal digit characters. -/
def digitsVal (cs : List Char) : ℕ := cs.foldl (fun n c => 10 * n + (c.toNat - 48)) 0

/-- Model of JavaScript `parseFloat`, restricted to complete plain decimal
literals (optional sign, an integer part, optionally a dot and a fraction
part).  The result is an exact pair `(mantissa, scale)` denoting
`mantissa / 10 ^ scale`; `none` models `NaN`.  Strings outside this
fragment (scientific notation, leading whitespace, a bare leading dot,
trailing garbage after a numeric front) are treated as `NaN`. -/
def jsParseFloat (s : String) : Option (ℤ × ℕ) :=
  let core : List Char → ℤ → Option (ℤ × ℕ) := fun cs sign =>
    let (intPart, rest) := List.span Char.isDigit cs
    if intPart.isEmpty then none
    else
      match rest with
      | [] => some (sign * (digitsVal intPart : ℤ), 0)
      | '.' :: frac =>
        if !frac.isEmpty && frac.all Char.isDigit then
          some (sign * ((digitsVal intPart : ℤ) * 10 ^ frac.length + (digitsVal frac : ℤ)),
            frac.length)
        else none
      | _ => none
  match s.data with
  | '-' :: rest => core rest (-1)
  | '+' :: rest => core rest 1
  | cs => core cs 1

/-- Model of JavaScript `String.startsWith`. -/
def strStartsWith (s pre : String) : Bool := List.isPrefixOf pre.data s.data

/-- Lexicographic less-or-equal on character lists, comparing characters by
code point — the order JavaScript uses to compare strings. -/
def lexLe : List Char → List Char → Bool
  | [], _ => true
  | _ :: _, [] => false
  | a :: as, b :: bs =>
    if a.toNat < b.toNat then true
    else if a.toNat = b.toNat then lexLe as bs
    else false

/-- Model of JavaScript string comparison `s <= t` (code-unit lexicographic;
identical to code-point order on the ASCII data this program handles). -/
def jsStrLe (s t : String) : Bool := lexLe s.data t.data

/-- One logged unit of work, as stored in the entry collection. -/
structure TimeEntry where
  id : String
  project : String
  durationMinutes : ℤ
  date : String
  description : String
  timestamp : ℤ
deriving DecidableEq, Repr

/-- The persisted active-counter record of `src/cli.js`.  `lastStartTime`
is `none` while paused, mirroring the `null` the source writes. -/
structure ActiveCounter where
  project : String
  description : String
  startTime : ℤ
  lastStartTime : Option ℤ
  accumulatedTime : ℤ
  paused : Bool
deriving DecidableEq, Repr

namespace TrackerService

/-- Embedding of `TrackerService.saveEntry`: appends a new entry built from
the given fields to the entry collection and returns the new collection
together with the new entry.  The fresh random `id` and the `Date.now()`
timestamp are passed in as parameters.  No field is validated. -/
def saveEntry (id : String) (ts : ℤ) (project : String) (durationMinutes : ℤ)
    (date : String) (description : String) (entries : List TimeEntry) :
    List TimeEntry × TimeEntry :=
  let newEntry : TimeEntry :=
    { id := id, project := project, durationMinutes := durationMinutes,
      date := date, description := description, timestamp := ts }
  (entries ++ [newEntry], newEntry)

/-- Embedding of `TrackerService.startCounter`: the freshly written counter
state, with `now` standing for `Date.now()`. -/
def startCounter (now : ℤ) (project description : String) : ActiveCounter :=
  { project := project, description := description, startTime := now,
    lastStartTime := some now, accumulatedTime := 0, paused := false }

/-- Embedding of `TrackerService.pauseCounter`.  The argument is the
persisted counter slot; the result is the new slot content paired with the
value returned to the caller (`none` models the `null` no-op signal). -/
def pauseCounter (now : ℤ) (disk : Option ActiveCounter) :
    Option ActiveCounter × Option ActiveCounter :=
  match disk with
  | none => (none, none)
  | some s =>
    if s.paused then (some s, none)
    else
      let s' := { s with
        accumulatedTime := s.accumulatedTime + (now - jsNum s.lastStartTime),
        paused := true,
        lastStartTime := none }
      (some s', some s')

/-- Embedding of `TrackerService.resumeCounter`, with the same shape as
`pauseCounter`. -/
def resumeCounter (now : ℤ) (disk : Option ActiveCounter) :
    Option ActiveCounter × Option ActiveCounter :=
  match disk with
  | none => (none, none)
  | some s =>
    if s.paused then
      let s' := { s with lastStartTime := some now, paused := false }
      (some s', some s')
    else (some s, none)

/-- The total-elapsed computation shared by `stopCounter` and the `status`
command: `accumulatedTime`, plus the live segment when running. -/
def totalElapsedOf (now : ℤ) (s : ActiveCounter) : ℤ :=
  s.accumulatedTime + (if s.paused then 0 else now - jsNum s.lastStartTime)

/-- Embedding of `TrackerService.stopCounter`.  Returns the new counter
slot, the new entry collection, and the value returned to the caller
(`none` when there was no counter; otherwise the saved entry and its
duration).  `today` stands for `new Date().toISOString().split('T')[0]`,
`id` and `ts` for the random id and `Date.now()` used by `saveEntry`. -/
def stopCounter (now : ℤ) (today id : String) (ts : ℤ)
    (disk : Option ActiveCounter) (entries : List TimeEntry) :
    Option ActiveCounter × List TimeEntry × Option (TimeEntry × ℤ) :=
  match disk with
  | none => (none, entries, none)
  | some s =>
    let totalElapsed := totalElapsedOf now s
    let durationMinutes := jsMathRound totalElapsed 60000
    let (entries', entry) := saveEntry id ts s.project durationMinutes today s.description entries
    (none, entries', some (entry, durationMinutes))

/-- Embedding of the `start` command of `executeCommand`: the dispatcher
refuses to start while a counter is persisted (conflict, `false`), and
otherwise writes a fresh counter (`true`). -/
def startCmd (now : ℤ) (project description : String) (disk : Option ActiveCounter) :
    Option ActiveCounter × Bool :=
  match disk with
  | some s => (some s, false)
  | none => (some (startCounter now project description), true)

/-- Embedding of the `status` command: purely reads the counter slot and
reports the rounded elapsed minutes; `none` models the "no active counter"
signal.  The slot is returned unchanged — the source performs no write. -/
def statusCmd (now : ℤ) (disk : Option ActiveCounter) :
    Option ActiveCounter × Option ℤ :=
  (disk, disk.map (fun s => jsMathRound (totalElapsedOf now s) 60000))

end TrackerService

/-- Model of the source's date-shape test, the regular expression
matching four digits, a dash, two digits, a dash and two digits. -/
def isDateFormat (s : String) : Bool :=
  match s.data with
  | [y1, y2, y3, y4, '-', m1, m2, '-', d1, d2] =>
    [y1, y2, y3, y4, m1, m2, d1, d2].all Char.isDigit
  | _ => false

/-- Outcome of the `add` command, one constructor per exit path of the
source's `case 'add'`. -/
inductive AddOutcome
  | usage
  | nanHours
  | missingDescription
  | added (entry : TimeEntry) (hours : ℤ × ℕ)
deriving DecidableEq, Repr

/-- Embedding of `executeCommand` `case 'add'`: argument-count check, hours
parsing via `parseFloat`, conversion to minutes by `Math.round(hours * 60)`,
the optional `YYYY-MM-DD` third argument, the mandatory-description check,
and the final `saveEntry`.  `today` stands for today's ISO date, `id` and
`ts` for the random id and timestamp consumed by `saveEntry`. -/
def executeAdd (today id : String) (ts : ℤ) (args : List String)
    (entries : List TimeEntry) : List TimeEntry × AddOutcome :=
  if args.length < 3 then (entries, .usage)
  else
    let project := args.getD 0 ""
    match jsParseFloat (args.getD 1 "") with
    | none => (entries, .nanHours)
    | some (mant, scale) =>
      let minutes := jsMathRound (mant * 60) (10 ^ scale)
      let arg2 := args.getD 2 ""
      let dateIdx : String × ℕ :=
        if arg2 ≠ "" ∧ isDateFormat arg2 then (arg2, 3) else (today, 2)
      if args.length ≤ dateIdx.2 then (entries, .missingDescription)
      else
        let description := String.intercalate " " (args.drop dateIdx.2)
        let (entries', entry) :=
          TrackerService.saveEntry id ts project minutes dateIdx.1 description entries
        (entries', .added entry (mant, scale))

/-- Gregorian leap-year test. -/
def isLeap (y : ℤ) : Bool := (y % 4 == 0 && y % 100 != 0) || y % 400 == 0

/-- Number of days in month `m` of year `y`. -/
def daysInMonth (y : ℤ) (m : ℕ) : ℕ :=
  if m = 2 then (if isLeap y then 29 else 28)
  else if m = 4 ∨ m = 6 ∨ m = 9 ∨ m = 11 then 30
  else 31

/-- Parses a `YYYY-MM-DD` string into a valid naive calendar date
`(year, month, day)`; `none` when the string is not shaped like a date or
denotes an impossible calendar day (`new Date` on such a string yields
an Invalid Date). -/
def parseCivilDate (s : String) : Option (ℤ × ℕ × ℕ) :=
  match s.data with
  | [y1, y2, y3, y4, '-', m1, m2, '-', d1, d2] =>
    if [y1, y2, y3, y4, m1, m2, d1, d2].all Char.isDigit then
      let y : ℤ := (digitsVal [y1, y2, y3, y4] : ℤ)
      let m : ℕ := digitsVal [m1, m2]
      let d : ℕ := digitsVal [d1, d2]
      if 1 ≤ m ∧ m ≤ 12 ∧ 1 ≤ d ∧ d ≤ daysInMonth y m then some (y, m, d) else none
    else none
  | _ => none

/-- Days elapsed since 1970-01-01 for a naive calendar date (the civil
calendar arithmetic a JavaScript `Date` performs internally for a
local-time date with no time-of-day). -/
def daysFromCivil (y : ℤ) (m d : ℕ) : ℤ :=
  let y' : ℤ := y - (if m ≤ 2 then 1 else 0)
  let era : ℤ := Int.fdiv y' 400
  let yoe : ℤ := y' - era * 400
  let doy : ℤ := ((153 * ((m : ℤ) + (if 2 < m then -3 else 9)) + 2).fdiv 5) + (d : ℤ) - 1
  let doe : ℤ := yoe * 365 + yoe.fdiv 4 - yoe.fdiv 100 + doy
  era * 146097 + doe - 719468

/-- Model of `new Date(date + 'T00:00:00').getDay()`: `0` is Sunday through
`6` is Saturday (1970-01-01 was a Thursday); `none` models the `NaN` of an
Invalid Date. -/
def jsGetDay (s : String) : Option ℤ :=
  (parseCivilDate s).map (fun t => (daysFromCivil t.1 t.2.1 t.2.2 + 4) % 7)

/-- Weekday names as produced by `Intl.DateTimeFormat('en-US',
\x7bweekday: 'long'\x7d)`, indexed by `getDay()`. -/
def weekdayName (k : ℤ) : String :=
  if k = 0 then "Sunday"
  else if k = 1 then "Monday"
  else if k = 2 then "Tuesday"
  else if k = 3 then "Wednesday"
  else if k = 4 then "Thursday"
  else if k = 5 then "Friday"
  else if k = 6 then "Saturday"
  else "Invalid Date"

/-- A date string that denotes a real naive calendar day. -/
def wellFormedDate (s : String) : Prop := (parseCivilDate s).isSome

instance wellFormedDate.decidable : DecidablePred wellFormedDate := by
  intro s
  unfold wellFormedDate
  infer_instance

/-- Effective month filter: JavaScript's `if (month)` treats the empty
string like an absent argument. -/
def effMonth : Option String → Option String
  | none => none
  | some m => if m = "" then none else some m

/-- Embedding of the month filtering both report functions perform:
keep the entries whose `date` starts with the month string. -/
def filterByMonth (month : Option String) (entries : List TimeEntry) : List TimeEntry :=
  match month with
  | none => entries
  | some m => entries.filter (fun e => strStartsWith e.date m)

/-- Upsert step of the `projectStats` accumulation: JavaScript object keys
keep first-insertion order, and re-hits add to the existing slot. -/
def bumpProject (key : String) (v : ℤ) : List (String × ℤ) → List (String × ℤ)
  | [] => [(key, v)]
  | (k, m) :: rest =>
    if k = key then (k, m + v) :: rest else (k, m) :: bumpProject key v rest

/-- Upsert step of the report's `dayStats` accumulation: per-date minute
total and the day's entries in arrival order. -/
def dayUpsert (e : TimeEntry) :
    List (String × ℤ × List TimeEntry) → List (String × ℤ × List TimeEntry)
  | [] => [(e.date, e.durationMinutes, [e])]
  | (d, m, es) :: rest =>
    if d = e.date then (d, m + e.durationMinutes, es ++ [e]) :: rest
    else (d, m, es) :: dayUpsert e rest

/-- The report's `dayStats` object built over a filtered entry list. -/
def dayStatsOf (l : List TimeEntry) : List (String × ℤ × List TimeEntry) :=
  l.foldl (fun acc e => dayUpsert e acc) []

/-- Upsert step of the table's `dayStats` accumulation: per-date pushed
descriptions and minute total. -/
def tableUpsert (e : TimeEntry) :
    List (String × List String × ℤ) → List (String × List String × ℤ)
  | [] => [(e.date, [e.description], e.durationMinutes)]
  | (d, ds, m) :: rest =>
    if d = e.date then (d, ds ++ [e.description], m + e.durationMinutes) :: rest
    else (d, ds, m) :: tableUpsert e rest

/-- The table's `dayStats` object built over a filtered entry list. -/
def tableDayStatsOf (l : List TimeEntry) : List (String × List String × ℤ) :=
  l.foldl (fun acc e => tableUpsert e acc) []

/-- Sort key used by `Object.entries(dayStats).sort()`: the default array
comparator stringifies each `[date, data]` pair, producing
`date + ",[object Object]"`, and compares those strings. -/
def jsEntriesKey (d : String) : String := d ++ ",[object Object]"

/-- The comparison relation of `Object.entries(...).sort()` on the report's
day-stats pairs. -/
def daySortLe (p q : String × ℤ × List TimeEntry) : Prop :=
  jsStrLe (jsEntriesKey p.1) (jsEntriesKey q.1) = true

/-- The comparison relation of `Object.entries(...).sort()` on the table's
day-stats pairs. -/
def tableSortLe (p q : String × List String × ℤ) : Prop :=
  jsStrLe (jsEntriesKey p.1) (jsEntriesKey q.1) = true

instance daySortLe.decidableRel : DecidableRel daySortLe := by
  intro p q
  unfold daySortLe
  infer_instance

instance tableSortLe.decidableRel : DecidableRel tableSortLe := by
  intro p q
  unfold tableSortLe
  infer_instance

/-- One rendered `By Day` section of the aggregated report: the date, the
weekday name interpolated next to it, whether the Monday section break is
emitted immediately before it, the day's minute total, and the day's
entries in arrival order. -/
structure DayLine where
  date : String
  dayName : String
  mondayBreak : Bool
  minutes : ℤ
  entries : List TimeEntry
deriving DecidableEq, Repr

/-- Builds one `By Day` output line from a sorted day-stats pair, as the
body of the report's final `forEach` does. -/
def mkDayLine (p : String × ℤ × List TimeEntry) : DayLine :=
  { date := p.1
    dayName := match jsGetDay p.1 with
      | some k => weekdayName k
      | none => "Invalid Date"
    mondayBreak := jsGetDay p.1 == some 1
    minutes := p.2.1
    entries := p.2.2 }

/-- Result of `generateReport`, with the string assembly abstracted into
its structured content: the two distinct no-data messages, or the report
with its title data, total minutes, per-project totals in first-seen
order, and the sorted per-day sections. -/
inductive ReportResult
  | noData
  | noEntriesFor (month : Option String)
  | report (month : Option String) (totalMinutes : ℤ)
      (projectStats : List (String × ℤ)) (days : List DayLine)
deriving DecidableEq, Repr

/-- Embedding of `generateReport` of `src/cli.js` (and its twin in
`src/services/storage.ts`): empty-store message, month filtering,
empty-filter message, totals, per-project stats, and the per-day sections
sorted by the `Object.entries(...).sort()` comparator. -/
def generateReport (month : Option String) (entries : List TimeEntry) : ReportResult :=
  if entries.length = 0 then .noData
  else
    let m := effMonth month
    let filtered := filterByMonth m entries
    if filtered.length = 0 then .noEntriesFor m
    else
      let projectStats := filtered.foldl (fun acc e => bumpProject e.project e.durationMinutes acc) []
      let totalMinutes := filtered.foldl (fun t e => t + e.durationMinutes) 0
      let days := (List.insertionSort daySortLe (dayStatsOf filtered)).map mkDayLine
      .report m totalMinutes projectStats days

/-- Result of `generateTable`: the same two no-data messages, or one row
per day carrying the date, the day's minute total (the printed hours are
`minutes / 60` formatted to two decimals), and the day's descriptions
joined by a semicolon and space. -/
inductive TableResult
  | noData
  | noEntriesFor (month : Option String)
  | table (rows : List (String × ℤ × String))
deriving DecidableEq, Repr

/-- Embedding of `generateTable` of `src/cli.js`. -/
def generateTable (month : Option String) (entries : List TimeEntry) : TableResult :=
  if entries.length = 0 then .noData
  else
    let m := effMonth month
    let filtered := filterByMonth m entries
    if filtered.length = 0 then .noEntriesFor m
    else
      let rows := (List.insertionSort tableSortLe (tableDayStatsOf filtered)).map
        (fun p => (p.1, p.2.2, String.intercalate "; " p.2.1))
      .table rows

/-- The total minutes carried by a report result, when it is a report. -/
def reportTotal : ReportResult → Option ℤ
  | .report _ t _ _ => some t
  | _ => none

/-- Date-and-minutes view of the report's day stats. -/
def dayMinutesView (l : List (String × ℤ × List TimeEntry)) : List (String × ℤ) :=
  l.map (fun x => (x.1, x.2.1))

/-- Date-and-minutes view of the table's day stats. -/
def tableMinutesView (l : List (String × List String × ℤ)) : List (String × ℤ) :=
  l.map (fun x => (x.1, x.2.2))

/-- One clock-stamped command sent to the counter state machine. -/
inductive CEvent
  | start (t : ℤ) (project description : String)
  | pause (t : ℤ)
  | resume (t : ℤ)
deriving DecidableEq, Repr

/-- Effect of one event on the persisted counter slot, through the real
command implementations (invalid transitions are no-ops). -/
def applyEvent (disk : Option ActiveCounter) : CEvent → Option ActiveCounter
  | .start t p d => (TrackerService.startCmd t p d disk).1
  | .pause t => (TrackerService.pauseCounter t disk).1
  | .resume t => (TrackerService.resumeCounter t disk).1

/-- The persisted counter slot after a whole event trace, starting from the
absent state. -/
def runTrace (evs : List CEvent) : Option ActiveCounter :=
  evs.foldl applyEvent none

/-- Specification-side view of the counter's history: the phase it is in,
with the clock time at which the current running segment opened. -/
inductive GhostPhase
  | absent
  | running (segStart : ℤ)
  | pausedPhase
deriving DecidableEq, Repr

/-- Specification-side view of a counter history: the closed running
segments (as start/end pairs) and the current phase. -/
structure Ghost where
  segments : List (ℤ × ℤ)
  phase : GhostPhase
deriving DecidableEq, Repr

/-- Specification-side transition: `start` from absent opens a segment,
`pause` closes the open segment, `resume` opens a new one; anything else
is a no-op, mirroring the machine's guard conditions. -/
def ghostStep (g : Ghost) : CEvent → Ghost
  | .start t _ _ =>
    match g.phase with
    | .absent => { segments := [], phase := .running t }
    | _ => g
  | .pause t =>
    match g.phase with
    | .running s => { segments := g.segments ++ [(s, t)], phase := .pausedPhase }
    | _ => g
  | .resume t =>
    match g.phase with
    | .pausedPhase => { segments := g.segments, phase := .running t }
    | _ => g

/-- Specification-side history after a whole trace. -/
def ghostRun (evs : List CEvent) : Ghost :=
  evs.foldl ghostStep { segments := [], phase := .absent }

/-- The length of one running segment. -/
def segLen (p : ℤ × ℤ) : ℤ := p.2 - p.1

/-- Total elapsed running time at instant `now`: the sum of the lengths of
all closed running segments, plus the live segment when running. -/
def runningTime (g : Ghost) (now : ℤ) : ℤ :=
  (g.segments.map segLen).sum +
    (match g.phase with
     | .running s => now - s
     | _ => 0)

/-- Simulation relation between the persisted counter slot and the
specification-side history. -/
def CounterSim (disk : Option ActiveCounter) (g : Ghost) : Prop :=
  match disk, g.phase with
  | none, .absent => True
  | some c, .running s =>
    c.paused = false ∧ c.lastStartTime = some s ∧
      c.accumulatedTime = (g.segments.map segLen).sum
  | some c, .pausedPhase =>
    c.paused = true ∧ c.accumulatedTime = (g.segments.map segLen).sum
  | _, _ => False

/-- Embedding of `TrackerService.getEntries` of `src/cli.js`: the persisted
document is `none` when the data file does not exist; `parse` stands for
`JSON.parse`, with `none` modelling a thrown `SyntaxError`, which the
source catches, returning the empty list. -/
def cliGetEntries (parse : String → Option (List TimeEntry)) (file : Option String) :
    List TimeEntry :=
  match file with
  | none => []
  | some raw =>
    match parse raw with
    | some entries => entries
    | none => []

/-- Embedding of `getEntries` of `src/services/storage.ts`: the stored
value is `none` when the storage key is absent; a falsy (empty) stored
string also yields the empty list; otherwise `JSON.parse` runs with no
surrounding try/catch, so a failed parse propagates the exception
(modelled by `Except.error`). -/
def storageGetEntries (parse : String → Option (List TimeEntry)) (stored : Option String) :
    Except String (List TimeEntry) :=
  match stored with
  | none => .ok []
  | some raw =>
    if raw = "" then .ok []
    else
      match parse raw with
      | some entries => .ok entries
      | none => .error "SyntaxError: Unexpected token in JSON"

/-- Sample entry used by witness instantiations. -/
def sampleWork : TimeEntry :=
  { id := "a1", project := "work", durationMinutes := 90, date := "2023-01-15",
    description := "Bug fixing", timestamp := 100 }

/-- Second sample entry used by witness instantiations. -/
def sampleWork2 : TimeEntry :=
  { id := "b2", project := "work", durationMinutes := 30, date := "2023-01-16",
    description := "More fixing", timestamp := 200 }

lemma jsMathRound_eq_roundHalfAwayFromZero (n d : ℤ) (h : 0 ≤ n) :
    jsMathRound n d = roundHalfAwayFromZero n d := by
  unfold jsMathRound roundHalfAwayFromZero
  rw [if_pos h]

/-- C1 counterexample: the `add` path accepts a negative hours argument.
`add proj -2 fix` parses `-2` as a number, converts it to `-120` minutes,
reports no validation error, and appends the entry — so an entry with a
negative `durationMinutes` is persisted via append, contrary to the
claim. -/
theorem executeAdd_persists_negative_duration :
    (executeAdd "2024-05-01" "id0" 7 ["proj", "-2", "fix"] []).1 =
      [{ id := "id0", project := "proj", durationMinutes := -120,
         date := "2024-05-01", description := "fix", timestamp := 7 }] ∧
    (executeAdd "2024-05-01" "id0" 7 ["proj", "-2", "fix"] []).2 =
      .added { id := "id0", project := "proj", durationMinutes := -120,
               date := "2024-05-01", description := "fix", timestamp := 7 } (-2, 0) ∧
    ((-120 : ℤ) < 0) := by decide

/-- C1 amended: the `add` command validates only the argument count, the
numeric shape of the hours argument, and the presence of a description;
on any of those validation errors the persisted collection is unchanged,
and otherwise exactly the new entry is appended.  Non-negativity of the
duration and non-emptiness of the project are not checked. -/
theorem executeAdd_validation_spec (today id : String) (ts : ℤ) (args : List String)
    (entries : List TimeEntry) :
    ((executeAdd today id ts args entries).1 =
      match (executeAdd today id ts args entries).2 with
      | .added e _ => entries ++ [e]
      | _ => entries) ∧
    ((executeAdd today id ts args entries).2 = .usage ↔ args.length < 3) := by
  unfold executeAdd
  split
  · simp_all
  · rename_i hlen
    have h3 : ¬args.length < 3 := by omega
    cases hpf : jsParseFloat (args.getD 1 "") with
    | none => simp_all
    | some v =>
      simp only [hpf]
      split <;> split <;> simp_all [TrackerService.saveEntry]

/-- Witness for the amended C1 theorem at a concrete successful `add`. -/
theorem executeAdd_validation_spec_witness :
    ((executeAdd "2024-05-01" "w1" 9 ["proj", "1.5", "fix"] []).1 =
      match (executeAdd "2024-05-01" "w1" 9 ["proj", "1.5", "fix"] []).2 with
      | .added e _ => [] ++ [e]
      | _ => ([] : List TimeEntry)) ∧
    ((executeAdd "2024-05-01" "w1" 9 ["proj", "1.5", "fix"] []).2 = .usage ↔
      (["proj", "1.5", "fix"] : List String).length < 3) :=
  executeAdd_validation_spec "2024-05-01" "w1" 9 ["proj", "1.5", "fix"] []

/-- C2: stopping a present counter (running or paused) deletes the
persisted counter, appends exactly one entry whose `durationMinutes` is
the round-half-away-from-zero of the exact total elapsed milliseconds over
60000 — rounding happens once, here, on the unrounded millisecond total —
and dates it today.  The hypothesis says the elapsed total is
non-negative, which holds whenever the clock readings are monotone. -/
theorem stopCounter_rounds_once (now : ℤ) (today id : String) (ts : ℤ)
    (c : ActiveCounter) (entries : List TimeEntry)
    (h : 0 ≤ TrackerService.totalElapsedOf now c) :
    TrackerService.stopCounter now today id ts (some c) entries =
      (none,
       entries ++
         [{ id := id, project := c.project,
            durationMinutes := roundHalfAwayFromZero (TrackerService.totalElapsedOf now c) 60000,
            date := today, description := c.description, timestamp := ts }],
       some ({ id := id, project := c.project,
               durationMinutes :=
                 roundHalfAwayFromZero (TrackerService.totalElapsedOf now c) 60000,
               date := today, description := c.description, timestamp := ts },
         roundHalfAwayFromZero (TrackerService.totalElapsedOf now c) 60000)) := by
  unfold TrackerService.stopCounter TrackerService.saveEntry
  dsimp only
  rw [jsMathRound_eq_roundHalfAwayFromZero _ _ h]

/-- Witness for C2, realising the specification's stub-clock scenario:
start at `t0 = 0`, stop at `t0 + 1500` milliseconds; the saved entry has
`durationMinutes = 0` and is appended to the store. -/
theorem stopCounter_rounds_once_witness :
    TrackerService.stopCounter 1500 "2024-05-01" "i" 7
        (some (TrackerService.startCounter 0 "proj" "task")) [] =
      (none,
       [{ id := "i", project := "proj", durationMinutes := 0,
          date := "2024-05-01", description := "task", timestamp := 7 }],
       some ({ id := "i", project := "proj", durationMinutes := 0,
               date := "2024-05-01", description := "task", timestamp := 7 }, 0)) :=
  (stopCounter_rounds_once 1500 "2024-05-01" "i" 7
    (TrackerService.startCounter 0 "proj" "task") [] (by decide)).trans (by decide)

/-- C4: every invalid transition — starting while a counter is present,
pausing while paused or absent, resuming while running or absent, stopping
or querying status while absent — returns the no-op signal (`false`
respectively `none`), distinct from the successful signal, and leaves the
persisted counter slot and the entry store unchanged; the matching valid
transitions return a non-`none` signal. -/
theorem invalid_transitions_are_noops (now : ℤ) (p d today id : String) (ts : ℤ)
    (c : ActiveCounter) (entries : List TimeEntry) :
    TrackerService.startCmd now p d (some c) = (some c, false) ∧
    TrackerService.pauseCounter now (some { c with paused := true }) =
      (some { c with paused := true }, none) ∧
    TrackerService.pauseCounter now none = (none, none) ∧
    TrackerService.resumeCounter now (some { c with paused := false }) =
      (some { c with paused := false }, none) ∧
    TrackerService.resumeCounter now none = (none, none) ∧
    TrackerService.stopCounter now today id ts none entries = (none, entries, none) ∧
    TrackerService.statusCmd now none = (none, none) ∧
    (TrackerService.pauseCounter now (some { c with paused := false })).2 ≠ none ∧
    (TrackerService.resumeCounter now (some { c with paused := true })).2 ≠ none ∧
    (TrackerService.startCmd now p d none).2 ≠ false := by
  refine ⟨rfl, ?_, rfl, ?_, rfl, rfl, rfl, ?_, ?_, ?_⟩ <;>
    simp [TrackerService.pauseCounter, TrackerService.resumeCounter, TrackerService.startCmd]

/-- C8: with a non-empty store and a month filter matching nothing, both
report operations return the empty-filtered-result signal carrying the
month, which is a different signal from the empty-store one. -/
theorem empty_filter_distinct_signal (month : String) (entries : List TimeEntry)
    (hne : entries ≠ []) (hm : month ≠ "")
    (hfilter : filterByMonth (some month) entries = []) :
    generateReport (some month) entries = .noEntriesFor (some month) ∧
    generateTable (some month) entries = .noEntriesFor (some month) ∧
    ReportResult.noEntriesFor (some month) ≠ ReportResult.noData ∧
    TableResult.noEntriesFor (some month) ≠ TableResult.noData := by
  have hlen : entries.length ≠ 0 := by simpa [List.length_eq_zero] using hne
  have heff : effMonth (some month) = some month := by simp [effMonth, hm]
  refine ⟨?_, ?_, by simp, by simp⟩ <;>
    simp [generateReport, generateTable, hlen, heff, hfilter]

/-- Witness for C8, realising the specification's scenario: real 2023 data
filtered by month `2099-01` yields the empty-filtered-result signal. -/
theorem empty_filter_distinct_signal_witness :
    generateReport (some "2099-01") [sampleWork] = .noEntriesFor (some "2099-01") ∧
    generateTable (some "2099-01") [sampleWork] = .noEntriesFor (some "2099-01") ∧
    ReportResult.noEntriesFor (some "2099-01") ≠ ReportResult.noData ∧
    TableResult.noEntriesFor (some "2099-01") ≠ TableResult.noData :=
  empty_filter_distinct_signal "2099-01" [sampleWork] (by decide) (by decide) (by decide)

lemma filterByMonth_nil (m : Option String) : filterByMonth m [] = [] := by
  cases m <;> rfl

lemma foldl_add_durations (l : List TimeEntry) :
    ∀ init : ℤ, l.foldl (fun t e => t + e.durationMinutes) init =
      init + (l.map (fun e => e.durationMinutes)).sum := by
  induction l with
  | nil => intro init; simp
  | cons e t ih => intro init; simp [ih, add_assoc]

/-- C5: the aggregated report's total minutes equal the sum of
`durationMinutes` over exactly the month-filtered entries, and an empty
filtered set yields one of the two no-data messages instead of a report. -/
theorem report_total_is_sum (month : Option String) (entries : List TimeEntry) :
    (reportTotal (generateReport month entries) =
      if (filterByMonth (effMonth month) entries).length = 0 then none
      else some ((filterByMonth (effMonth month) entries).map
        (fun e => e.durationMinutes)).sum) ∧
    ((filterByMonth (effMonth month) entries).length = 0 →
      generateReport month entries = .noData ∨
        generateReport month entries = .noEntriesFor (effMonth month)) := by
  constructor
  · by_cases h0 : entries.length = 0
    · have he := List.length_eq_zero.mp h0
      subst he
      simp [generateReport, reportTotal, filterByMonth_nil, h0]
    · by_cases h1 : (filterByMonth (effMonth month) entries).length = 0
      · simp [generateReport, reportTotal, h0, h1]
      · simp [generateReport, reportTotal, h0, h1, foldl_add_durations]
  · intro h1
    by_cases h0 : entries.length = 0
    · left
      simp [generateReport, h0]
    · right
      simp [generateReport, h0, h1]

/-- Witness for C5: a concrete two-entry store totals 120 minutes, and a
month that matches nothing yields a no-data message. -/
theorem report_total_is_sum_witness :
    reportTotal (generateReport none [sampleWork, sampleWork2]) = some 120 ∧
    (generateReport (some "2099-01") [sampleWork] = .noData ∨
      generateReport (some "2099-01") [sampleWork] =
        .noEntriesFor (effMonth (some "2099-01"))) := by
  constructor
  · have h := (report_total_is_sum none [sampleWork, sampleWork2]).1
    rw [h]
    decide
  · exact (report_total_is_sum (some "2099-01") [sampleWork]).2 (by decide)

lemma view_upsert (e : TimeEntry) :
    ∀ (a : List (String × ℤ × List TimeEntry)) (b : List (String × List String × ℤ)),
      dayMinutesView a = tableMinutesView b →
      dayMinutesView (dayUpsert e a) = tableMinutesView (tableUpsert e b) := by
  intro a
  induction a with
  | nil =>
    intro b hb
    have hbnil : b = [] := by
      cases b with
      | nil => rfl
      | cons x xs => simp [dayMinutesView, tableMinutesView] at hb
    subst hbnil
    rfl
  | cons p a' ih =>
    intro b hb
    cases b with
    | nil => simp [dayMinutesView, tableMinutesView] at hb
    | cons q b' =>
      obtain ⟨p1, p2, p3⟩ := p
      obtain ⟨q1, q2, q3⟩ := q
      simp only [dayMinutesView, tableMinutesView, List.map_cons, List.cons.injEq,
        Prod.mk.injEq] at hb
      obtain ⟨⟨hk, hm⟩, hrest⟩ := hb
      subst hk
      subst hm
      by_cases hd : p1 = e.date
      · simp [dayUpsert, tableUpsert, hd, dayMinutesView, tableMinutesView, hrest]
      · have := ih b' hrest
        simp [dayUpsert, tableUpsert, hd, dayMinutesView, tableMinutesView] at this ⊢
        exact this

lemma view_fold (l : List TimeEntry) :
    ∀ a b, dayMinutesView a = tableMinutesView b →
      dayMinutesView (l.foldl (fun acc e => dayUpsert e acc) a) =
        tableMinutesView (l.foldl (fun acc e => tableUpsert e acc) b) := by
  induction l with
  | nil => intro a b h; simpa using h
  | cons e t ih =>
    intro a b h
    simp only [List.foldl_cons]
    exact ih _ _ (view_upsert e a b h)

/-- The common day-key comparison lifted to bare date-and-minutes pairs. -/
def pairSortLe (p q : String × ℤ) : Prop :=
  jsStrLe (jsEntriesKey p.1) (jsEntriesKey q.1) = true

instance pairSortLe.decidableRel : DecidableRel pairSortLe := by
  intro p q
  unfold pairSortLe
  infer_instance

/-- C6: over the same filtered input, the aggregated report and the table
compute identical per-day minute totals — first for the day-stats maps
both outputs are rendered from, then for the sorted sequences in output
order. -/
theorem per_day_totals_agree (month : Option String) (entries : List TimeEntry) :
    dayMinutesView (dayStatsOf (filterByMonth (effMonth month) entries)) =
      tableMinutesView (tableDayStatsOf (filterByMonth (effMonth month) entries)) ∧
    (List.insertionSort daySortLe
        (dayStatsOf (filterByMonth (effMonth month) entries))).map
        (fun x => (x.1, x.2.1)) =
      (List.insertionSort tableSortLe
        (tableDayStatsOf (filterByMonth (effMonth month) entries))).map
        (fun x => (x.1, x.2.2)) := by
  have hview := view_fold (filterByMonth (effMonth month) entries) [] [] rfl
  refine ⟨hview, ?_⟩
  have h1 := List.map_insertionSort daySortLe pairSortLe (fun x => (x.1, x.2.1))
    (dayStatsOf (filterByMonth (effMonth month) entries))
    (fun a _ b _ => Iff.rfl)
  have h2 := List.map_insertionSort tableSortLe pairSortLe (fun x => (x.1, x.2.2))
    (tableDayStatsOf (filterByMonth (effMonth month) entries))
    (fun a _ b _ => Iff.rfl)
  rw [h1, h2]
  exact congrArg _ hview

lemma counterSim_step (d : Option ActiveCounter) (g : Ghost) (e : CEvent)
    (h : CounterSim d g) : CounterSim (applyEvent d e) (ghostStep g e) := by
  obtain ⟨segs, ph⟩ := g
  cases e with
  | start t p desc =>
    cases d with
    | none =>
      cases ph with
      | absent =>
        simp [applyEvent, ghostStep, TrackerService.startCmd,
          TrackerService.startCounter, CounterSim]
      | running s => exact absurd h (by simp [CounterSim])
      | pausedPhase => exact absurd h (by simp [CounterSim])
    | some c =>
      cases ph with
      | absent => exact absurd h (by simp [CounterSim])
      | running s => simpa [applyEvent, ghostStep, TrackerService.startCmd, CounterSim] using h
      | pausedPhase => simpa [applyEvent, ghostStep, TrackerService.startCmd, CounterSim] using h
  | pause t =>
    cases d with
    | none =>
      cases ph with
      | absent => simp [applyEvent, ghostStep, TrackerService.pauseCounter, CounterSim]
      | running s => exact absurd h (by simp [CounterSim])
      | pausedPhase => exact absurd h (by simp [CounterSim])
    | some c =>
      cases ph with
      | absent => exact absurd h (by simp [CounterSim])
      | running s =>
        simp only [CounterSim] at h
        obtain ⟨hp, hl, ha⟩ := h
        simp [applyEvent, ghostStep, TrackerService.pauseCounter, CounterSim,
          hp, hl, ha, jsNum, segLen]
      | pausedPhase =>
        simp only [CounterSim] at h
        simpa [applyEvent, ghostStep, TrackerService.pauseCounter, CounterSim, h.1] using h
  | resume t =>
    cases d with
    | none =>
      cases ph with
      | absent => simp [applyEvent, ghostStep, TrackerService.resumeCounter, CounterSim]
      | running s => exact absurd h (by simp [CounterSim])
      | pausedPhase => exact absurd h (by simp [CounterSim])
    | some c =>
      cases ph with
      | absent => exact absurd h (by simp [CounterSim])
      | running s =>
        simp only [CounterSim] at h
        simpa [applyEvent, ghostStep, TrackerService.resumeCounter, CounterSim, h.1] using h
      | pausedPhase =>
        simp only [CounterSim] at h
        obtain ⟨hp, ha⟩ := h
        simp [applyEvent, ghostStep, TrackerService.resumeCounter, CounterSim, hp, ha]

lemma counterSim_run (evs : List CEvent) :
    ∀ (d : Option ActiveCounter) (g : Ghost), CounterSim d g →
      CounterSim (evs.foldl applyEvent d) (evs.foldl ghostStep g) := by
  induction evs with
  | nil => intro d g h; simpa using h
  | cons e t ih => intro d g h; exact ih _ _ (counterSim_step d g e h)

/-- C3: for every counter state reachable by any sequence of start, pause
and resume events at arbitrary clock times, `accumulatedTime` plus, if not
paused, `now - lastStartTime`, equals the total elapsed running time —
the summed lengths of all running segments of the event history — and
hence every operation of the state machine preserves the invariant. -/
theorem counter_elapsed_invariant (evs : List CEvent) (c : ActiveCounter) (now : ℤ)
    (h : runTrace evs = some c) :
    TrackerService.totalElapsedOf now c = runningTime (ghostRun evs) now := by
  have hs := counterSim_run evs none { segments := [], phase := .absent }
    (by simp [CounterSim])
  have hrw : evs.foldl applyEvent none = some c := h
  rw [hrw] at hs
  rcases hgr : (evs.foldl ghostStep { segments := [], phase := .absent } : Ghost)
    with ⟨segs, ph⟩
  rw [hgr] at hs
  have hrun : ghostRun evs = ⟨segs, ph⟩ := hgr
  rw [hrun]
  cases ph with
  | absent => exact absurd hs (by simp [CounterSim])
  | running s =>
    simp only [CounterSim] at hs
    obtain ⟨hp, hl, ha⟩ := hs
    simp [TrackerService.totalElapsedOf, runningTime, hp, hl, ha, jsNum]
  | pausedPhase =>
    simp only [CounterSim] at hs
    obtain ⟨hp, ha⟩ := hs
    simp [TrackerService.totalElapsedOf, runningTime, hp, ha]

/-- Witness for C3 on a concrete start, pause, resume history observed at
time 25. -/
theorem counter_elapsed_invariant_witness :
    runTrace [CEvent.start 0 "p" "d", CEvent.pause 10, CEvent.resume 20] =
      some { project := "p", description := "d", startTime := 0,
             lastStartTime := some 20, accumulatedTime := 10, paused := false } ∧
    TrackerService.totalElapsedOf 25
        { project := "p", description := "d", startTime := 0,
          lastStartTime := some 20, accumulatedTime := 10, paused := false } =
      runningTime (ghostRun [CEvent.start 0 "p" "d", CEvent.pause 10, CEvent.resume 20]) 25 :=
  ⟨by decide, counter_elapsed_invariant _ _ 25 (by decide)⟩

lemma lexLe_refl : ∀ l : List Char, lexLe l l = true := by
  intro l
  induction l with
  | nil => rfl
  | cons a as ih => simp [lexLe, ih]

lemma lexLe_total : ∀ l1 l2 : List Char, lexLe l1 l2 = true ∨ lexLe l2 l1 = true := by
  intro l1
  induction l1 with
  | nil => intro l2; left; rfl
  | cons a as ih =>
    intro l2
    cases l2 with
    | nil => right; rfl
    | cons b bs =>
      rcases Nat.lt_trichotomy a.toNat b.toNat with hlt | heq | hgt
      · left; simp [lexLe, hlt]
      · rcases ih bs with h | h
        · left; simp [lexLe, heq, h]
        · right; simp [lexLe, heq, h]
      · right; simp [lexLe, hgt]

lemma lexLe_trans : ∀ l1 l2 l3 : List Char, lexLe l1 l2 = true → lexLe l2 l3 = true →
    lexLe l1 l3 = true := by
  intro l1
  induction l1 with
  | nil => intros; rfl
  | cons a as ih =>
    intro l2 l3 h12 h23
    cases l2 with
    | nil => simp [lexLe] at h12
    | cons b bs =>
      cases l3 with
      | nil => simp [lexLe] at h23
      | cons c cs =>
        by_cases hab : a.toNat < b.toNat
        · by_cases hbc : b.toNat < c.toNat
          · have hac : a.toNat < c.toNat := hab.trans hbc
            simp [lexLe, hac]
          · by_cases hbc2 : b.toNat = c.toNat
            · have hac : a.toNat < c.toNat := hbc2 ▸ hab
              simp [lexLe, hac]
            · simp [lexLe, hbc, hbc2] at h23
        · by_cases hab2 : a.toNat = b.toNat
          · by_cases hbc : b.toNat < c.toNat
            · have hac : a.toNat < c.toNat := hab2 ▸ hbc
              simp [lexLe, hac]
            · by_cases hbc2 : b.toNat = c.toNat
              · have hac : a.toNat = c.toNat := hab2.trans hbc2
                have h12' : lexLe as bs = true := by
                  simpa [lexLe, hab, hab2] using h12
                have h23' : lexLe bs cs = true := by
                  simpa [lexLe, hbc, hbc2] using h23
                simp [lexLe, hac, ih bs cs h12' h23']
              · simp [lexLe, hbc, hbc2] at h23
          · simp [lexLe, hab, hab2] at h12

lemma lexLe_append_same (s : List Char) :
    ∀ l1 l2 : List Char, l1.length = l2.length →
      lexLe (l1 ++ s) (l2 ++ s) = lexLe l1 l2 := by
  intro l1
  induction l1 with
  | nil =>
    intro l2 hl
    have hnil : l2 = [] := by
      cases l2 with
      | nil => rfl
      | cons x xs => simp at hl
    subst hnil
    simp [lexLe_refl, lexLe]
  | cons a as ih =>
    intro l2 hl
    cases l2 with
    | nil => simp at hl
    | cons b bs =>
      have hlen : as.length = bs.length := by simpa using hl
      simp only [List.cons_append, lexLe, List.append_eq, ih bs hlen]

instance daySortLe.isTotal : IsTotal (String × ℤ × List TimeEntry) daySortLe :=
  ⟨fun p q => by unfold daySortLe jsStrLe; exact lexLe_total _ _⟩

instance daySortLe.isTrans : IsTrans (String × ℤ × List TimeEntry) daySortLe :=
  ⟨fun p q r h1 h2 => by
    unfold daySortLe jsStrLe at h1 h2 ⊢
    exact lexLe_trans _ _ _ h1 h2⟩

lemma mem_dayUpsert_key (e : TimeEntry) :
    ∀ (a : List (String × ℤ × List TimeEntry)) p, p ∈ dayUpsert e a →
      p.1 = e.date ∨ ∃ q ∈ a, q.1 = p.1 := by
  intro a
  induction a with
  | nil =>
    intro p hp
    simp only [dayUpsert, List.mem_singleton] at hp
    left
    rw [hp]
  | cons q a' ih =>
    intro p hp
    obtain ⟨q1, q2, q3⟩ := q
    by_cases hd : q1 = e.date
    · simp only [dayUpsert] at hp
      rw [if_pos hd] at hp
      cases hp with
      | head => left; rw [hd]
      | tail _ h => right; exact ⟨p, List.mem_cons_of_mem _ h, rfl⟩
    · simp only [dayUpsert] at hp
      rw [if_neg hd] at hp
      cases hp with
      | head => right; exact ⟨(q1, q2, q3), List.mem_cons_self _ _, rfl⟩
      | tail _ h =>
        rcases ih p h with hk | ⟨r, hr, hr1⟩
        · left; exact hk
        · right; exact ⟨r, List.mem_cons_of_mem _ hr, hr1⟩

lemma mem_dayStats_key (l : List TimeEntry) :
    ∀ acc p, p ∈ l.foldl (fun a e => dayUpsert e a) acc →
      (∃ e ∈ l, e.date = p.1) ∨ ∃ q ∈ acc, q.1 = p.1 := by
  induction l with
  | nil => intro acc p hp; right; exact ⟨p, hp, rfl⟩
  | cons e t ih =>
    intro acc p hp
    simp only [List.foldl_cons] at hp
    rcases ih _ p hp with ⟨e', he', hd⟩ | ⟨q, hq, hq1⟩
    · left; exact ⟨e', List.mem_cons_of_mem _ he', hd⟩
    · rcases mem_dayUpsert_key e acc q hq with h | ⟨r, hr, hr1⟩
      · left
        refine ⟨e, List.mem_cons_self _ _, ?_⟩
        rw [← h]
        exact hq1
      · right; exact ⟨r, hr, hr1.trans hq1⟩

lemma mem_dayStatsOf_key (l : List TimeEntry) (p : String × ℤ × List TimeEntry)
    (hp : p ∈ dayStatsOf l) : ∃ e ∈ l, e.date = p.1 := by
  rcases mem_dayStats_key l [] p hp with h | ⟨q, hq, _⟩
  · exact h
  · simp at hq

lemma filterByMonth_subset (m : Option String) (entries : List TimeEntry) :
    ∀ e ∈ filterByMonth m entries, e ∈ entries := by
  cases m with
  | none => intro e he; exact he
  | some s => intro e he; exact (List.mem_filter.mp he).1

lemma wellFormedDate_data_length (s : String) (h : wellFormedDate s) :
    s.data.length = 10 := by
  unfold wellFormedDate parseCivilDate at h
  split at h
  · rename_i heq
    rw [heq]
    rfl
  · simp at h

/-- C7: for a store of well-formed dates, the aggregated report's per-day
sections come out sorted ascending lexicographically by date string, the
Monday section break is emitted exactly before the days whose weekday name
is Monday, and each day's weekday name is resolved from its date
interpreted as a naive calendar day. -/
theorem report_days_sorted_monday_breaks (month : Option String) (entries : List TimeEntry)
    (hwf : ∀ e ∈ entries, wellFormedDate e.date)
    (m : Option String) (tot : ℤ) (ps : List (String × ℤ)) (days : List DayLine)
    (hrep : generateReport month entries = .report m tot ps days) :
    days.Pairwise (fun a b => jsStrLe a.date b.date = true) ∧
    (∀ l ∈ days, (l.mondayBreak = true ↔ l.dayName = "Monday")) ∧
    (∀ l ∈ days, ∃ k, jsGetDay l.date = some k ∧ 0 ≤ k ∧ k < 7 ∧
      l.dayName = weekdayName k) := by
  unfold generateReport at hrep
  split at hrep
  · exact absurd hrep (by simp)
  · dsimp only at hrep
    split at hrep
    · exact absurd hrep (by simp)
    · rename_i h0 h1
      cases hrep
      have hmemwf : ∀ l ∈ (List.insertionSort daySortLe
          (dayStatsOf (filterByMonth (effMonth month) entries))).map mkDayLine,
          wellFormedDate l.date := by
        intro l hl
        obtain ⟨p, hp, rfl⟩ := List.mem_map.mp hl
        have hp' : p ∈ dayStatsOf (filterByMonth (effMonth month) entries) :=
          (List.mem_insertionSort _).mp hp
        obtain ⟨e, he, hdate⟩ := mem_dayStatsOf_key _ p hp'
        have hee : e ∈ entries := filterByMonth_subset _ _ e he
        have := hwf e hee
        rw [hdate] at this
        exact this
      refine ⟨?_, ?_, ?_⟩
      · have hsorted := List.sorted_insertionSort daySortLe
          (dayStatsOf (filterByMonth (effMonth month) entries))
        have hpw : ((List.insertionSort daySortLe
            (dayStatsOf (filterByMonth (effMonth month) entries))).map mkDayLine).Pairwise
            (fun a b => jsStrLe (jsEntriesKey a.date) (jsEntriesKey b.date) = true) := by
          rw [List.pairwise_map]
          exact hsorted
        refine hpw.imp_of_mem ?_
        intro a b ha hb hR
        have la := wellFormedDate_data_length _ (hmemwf a ha)
        have lb := wellFormedDate_data_length _ (hmemwf b hb)
        unfold jsStrLe jsEntriesKey at hR
        unfold jsStrLe
        rw [String.data_append, String.data_append,
          lexLe_append_same _ _ _ (by rw [la, lb])] at hR
        exact hR
      · intro l hl
        have hwfl := hmemwf l hl
        obtain ⟨p, hp, rfl⟩ := List.mem_map.mp hl
        obtain ⟨t, ht⟩ := Option.isSome_iff_exists.mp hwfl
        have hget : jsGetDay p.1 = some ((daysFromCivil t.1 t.2.1 t.2.2 + 4) % 7) := by
          simp only [mkDayLine] at ht
          simp [jsGetDay, ht]
        have hk0 : 0 ≤ (daysFromCivil t.1 t.2.1 t.2.2 + 4) % 7 :=
          Int.emod_nonneg _ (by norm_num)
        have hk7 : (daysFromCivil t.1 t.2.1 t.2.2 + 4) % 7 < 7 :=
          Int.emod_lt_of_pos _ (by norm_num)
        simp only [mkDayLine, hget, beq_iff_eq, Option.some.injEq]
        set k := (daysFromCivil t.1 t.2.1 t.2.2 + 4) % 7 with hkdef
        constructor
        · intro hone
          rw [hone]
          rfl
        · intro hname
          interval_cases k <;> revert hname <;> decide
      · intro l hl
        have hwfl := hmemwf l hl
        obtain ⟨p, hp, rfl⟩ := List.mem_map.mp hl
        obtain ⟨t, ht⟩ := Option.isSome_iff_exists.mp hwfl
        have hget : jsGetDay p.1 = some ((daysFromCivil t.1 t.2.1 t.2.2 + 4) % 7) := by
          simp only [mkDayLine] at ht
          simp [jsGetDay, ht]
        refine ⟨(daysFromCivil t.1 t.2.1 t.2.2 + 4) % 7, hget,
          Int.emod_nonneg _ (by norm_num), Int.emod_lt_of_pos _ (by norm_num), ?_⟩
        simp [mkDayLine, hget]

/-- The single `By Day` line of the report over `[sampleWork2]`, used by
the witness below. -/
def sampleMondayLine : DayLine :=
  { date := "2023-01-16", dayName := "Monday", mondayBreak := true,
    minutes := 30, entries := [sampleWork2] }

/-- Witness for C7 on a one-entry store whose date, 2023-01-16, is a
Monday: the section break is emitted before it and its weekday name is
Monday. -/
theorem report_days_sorted_monday_breaks_witness :
    (∀ e ∈ [sampleWork2], wellFormedDate e.date) ∧
    generateReport none [sampleWork2] = .report none 30 [("work", 30)] [sampleMondayLine] ∧
    ([sampleMondayLine] : List DayLine).Pairwise
      (fun a b => jsStrLe a.date b.date = true) ∧
    (∀ l ∈ ([sampleMondayLine] : List DayLine),
      (l.mondayBreak = true ↔ l.dayName = "Monday")) ∧
    (∀ l ∈ ([sampleMondayLine] : List DayLine),
      ∃ k, jsGetDay l.date = some k ∧ 0 ≤ k ∧ k < 7 ∧ l.dayName = weekdayName k) := by
  have h := report_days_sorted_monday_breaks none [sampleWork2] (by decide)
    none 30 [("work", 30)] [sampleMondayLine] (by decide)
  exact ⟨by decide, by decide, h.1, h.2.1, h.2.2⟩

/-- C9 counterexample: the browser-variant `getEntries` of
`src/services/storage.ts` wraps `JSON.parse` in no try/catch, so a corrupt
stored document propagates the parse exception to the caller instead of
degrading to the empty sequence.  The model parser is instantiated at a
single corrupt document, one any model of `JSON.parse` rejects. -/
theorem storageGetEntries_propagates_parse_error :
    storageGetEntries (fun _ => none) (some "corrupt") =
      .error "SyntaxError: Unexpected token in JSON" := rfl

/-- C9 amended: the CLI `TrackerService.getEntries` returns a list and
never raises — the empty list when the data file is missing or its content
unparseable; the browser-variant `getEntries` returns the empty list when
no document is stored but propagates the parse error on a corrupt one. -/
theorem getEntries_silent_recovery (parse : String → Option (List TimeEntry))
    (raw : String) (hraw : parse raw = none) :
    cliGetEntries parse none = [] ∧
    cliGetEntries parse (some raw) = [] ∧
    storageGetEntries parse none = .ok [] := by
  refine ⟨rfl, ?_, rfl⟩
  simp [cliGetEntries, hraw]

/-- Witness for the amended C9 theorem at a concrete corrupt document. -/
theorem getEntries_silent_recovery_witness :
    cliGetEntries (fun _ => none) none = [] ∧
    cliGetEntries (fun _ => none) (some "corrupt") = [] ∧
    storageGetEntries (fun _ => none) none = .ok [] :=
  getEntries_silent_recovery (fun _ => none) "corrupt" rfl

/-- C10: on the states where they succeed, `pauseCounter` leaves
`project`, `description` and `startTime` untouched, `resumeCounter`
additionally leaves `accumulatedTime` untouched, and a pause immediately
followed by a resume changes no field except `accumulatedTime`, `paused`
and `lastStartTime` (with `paused` returning to its original value). -/
theorem pause_resume_frame (t1 t2 : ℤ) (c : ActiveCounter) :
    ((TrackerService.pauseCounter t1 (some { c with paused := false })).1.map
        ActiveCounter.project = some c.project) ∧
    ((TrackerService.pauseCounter t1 (some { c with paused := false })).1.map
        ActiveCounter.description = some c.description) ∧
    ((TrackerService.pauseCounter t1 (some { c with paused := false })).1.map
        ActiveCounter.startTime = some c.startTime) ∧
    ((TrackerService.resumeCounter t1 (some { c with paused := true })).1.map
        ActiveCounter.project = some c.project) ∧
    ((TrackerService.resumeCounter t1 (some { c with paused := true })).1.map
        ActiveCounter.description = some c.description) ∧
    ((TrackerService.resumeCounter t1 (some { c with paused := true })).1.map
        ActiveCounter.startTime = some c.startTime) ∧
    ((TrackerService.resumeCounter t1 (some { c with paused := true })).1.map
        ActiveCounter.accumulatedTime = some c.accumulatedTime) ∧
    ((TrackerService.resumeCounter t2
        (TrackerService.pauseCounter t1 (some { c with paused := false })).1).1.map
        ActiveCounter.project = some c.project) ∧
    ((TrackerService.resumeCounter t2
        (TrackerService.pauseCounter t1 (some { c with paused := false })).1).1.map
        ActiveCounter.description = some c.description) ∧
    ((TrackerService.resumeCounter t2
        (TrackerService.pauseCounter t1 (some { c with paused := false })).1).1.map
        ActiveCounter.startTime = some c.startTime) ∧
    ((TrackerService.resumeCounter t2
        (TrackerService.pauseCounter t1 (some { c with paused := false })).1).1.map
        ActiveCounter.paused = some false) := by
  refine ⟨rfl, rfl, rfl, ?_, ?_, ?_, ?_, ?_, ?_, ?_, ?_⟩ <;>
    simp [TrackerService.pauseCounter, TrackerService.resumeCounter]
